import Mathlib

/-!
# Verification of the nievePool modulation / delay-line engine

Shallow embedding of the value-bearing logic of `VideoFeedbackManager`,
`ParameterManager` and `AudioReactivityManager` from the nievePool
repository, together with proofs about the claims of its specification.

C++ `float`/`double` arithmetic is modelled over `ℚ` (the claims are about
the exact algebraic formulas the code computes); C++ `int` is modelled over
`ℤ`. Non-finite floating-point values (NaN/Inf), which matter only for the
audio-input sanitization path, are modelled by an explicit sum type
`FloatVal`. A C-style cast `(int)x` truncates toward zero, modelled by
`truncQ`.
-/

namespace NievePool

/-! ## DelayLineIndexer (VideoFeedbackManager.cpp)

`incrementFrameIndex` keeps `currentFrameIndex = frameCount % frameBufferLength`;
`processMainPipeline` computes, with `delayAmount` already clamped into
`[0, frameBufferLength - 1]`:

    int delayIndex    = ((frameBufferLength + currentFrameIndex - delayAmount) % frameBufferLength);
    int temporalIndex = ((frameBufferLength + currentFrameIndex - 1) % frameBufferLength);
    int storeIndex    = ((frameBufferLength + currentFrameIndex - 1) % frameBufferLength);

All operands of `%` are nonnegative in the quantified ranges, where C's
truncating `%` agrees with `Int.emod` (`%` below). -/

/-- `currentFrameIndex` after tick `T` with ring length `N`
(`VideoFeedbackManager::incrementFrameIndex`). -/
def currentFrameIndexOf (N T : ℤ) : ℤ := T % N

/-- `delayIndex` read by the feedback path (`processMainPipeline`). -/
def delayIndexOf (N T D : ℤ) : ℤ := (N + currentFrameIndexOf N T - D) % N

/-- `temporalIndex`, the immediately preceding frame (`processMainPipeline`). -/
def temporalIndexOf (N T : ℤ) : ℤ := (N + currentFrameIndexOf N T - 1) % N

/-- `storeIndex`, the slot overwritten this tick (`processMainPipeline`). -/
def storeIndexOf (N T : ℤ) : ℤ := (N + currentFrameIndexOf N T - 1) % N

end NievePool

namespace NievePool

/-- C1: for every ring length N in [1,128], tick T in [0,10000] and delay
amount D in [0,N-1], the four delay-line index functions return values in
[0, N-1]; the write slot equals the previous slot at every tick; and a
delay of 0 reads the current slot. -/
theorem delay_line_indices_in_range_write_eq_prev (N T D : ℤ)
    (hN1 : 1 ≤ N) (hN2 : N ≤ 128) (hT1 : 0 ≤ T) (hT2 : T ≤ 10000)
    (hD1 : 0 ≤ D) (hD2 : D ≤ N - 1) :
    (0 ≤ currentFrameIndexOf N T ∧ currentFrameIndexOf N T ≤ N - 1) ∧
    (0 ≤ delayIndexOf N T D ∧ delayIndexOf N T D ≤ N - 1) ∧
    (0 ≤ temporalIndexOf N T ∧ temporalIndexOf N T ≤ N - 1) ∧
    (0 ≤ storeIndexOf N T ∧ storeIndexOf N T ≤ N - 1) ∧
    storeIndexOf N T = temporalIndexOf N T ∧
    delayIndexOf N T 0 = currentFrameIndexOf N T := by
  have hNpos : 0 < N := hN1
  have hNne : N ≠ 0 := by omega
  refine ⟨⟨Int.emod_nonneg T hNne, ?_⟩, ⟨Int.emod_nonneg _ hNne, ?_⟩,
      ⟨Int.emod_nonneg _ hNne, ?_⟩, ⟨Int.emod_nonneg _ hNne, ?_⟩, rfl, ?_⟩
  · have := Int.emod_lt_of_pos T hNpos
    simpa [currentFrameIndexOf] using by omega
  · have := Int.emod_lt_of_pos (N + currentFrameIndexOf N T - D) hNpos
    simpa [delayIndexOf] using by omega
  · have := Int.emod_lt_of_pos (N + currentFrameIndexOf N T - 1) hNpos
    simpa [temporalIndexOf] using by omega
  · have := Int.emod_lt_of_pos (N + currentFrameIndexOf N T - 1) hNpos
    simpa [storeIndexOf] using by omega
  · have harg : N + currentFrameIndexOf N T - 0 = currentFrameIndexOf N T + N * 1 := by
      ring
    calc delayIndexOf N T 0 = (currentFrameIndexOf N T + N * 1) % N := by
          rw [delayIndexOf, harg]
      _ = currentFrameIndexOf N T % N := Int.add_mul_emod_self_left _ _ _
      _ = currentFrameIndexOf N T := by
          simp only [currentFrameIndexOf]
          exact Int.emod_emod_of_dvd T (dvd_refl N)

/-- Witness for C1 at N = 30, T = 95, D = 7. -/
theorem delay_line_indices_witness :
    (0 ≤ currentFrameIndexOf 30 95 ∧ currentFrameIndexOf 30 95 ≤ 29) ∧
    (0 ≤ delayIndexOf 30 95 7 ∧ delayIndexOf 30 95 7 ≤ 29) ∧
    (0 ≤ temporalIndexOf 30 95 ∧ temporalIndexOf 30 95 ≤ 29) ∧
    (0 ≤ storeIndexOf 30 95 ∧ storeIndexOf 30 95 ≤ 29) ∧
    storeIndexOf 30 95 = temporalIndexOf 30 95 ∧
    delayIndexOf 30 95 0 = currentFrameIndexOf 30 95 :=
  delay_line_indices_in_range_write_eq_prev 30 95 7
    (by norm_num) (by norm_num) (by norm_num) (by norm_num) (by norm_num) (by norm_num)

end NievePool

namespace NievePool

/-! ## ParameterManager (ParameterManager.cpp / ParameterManager.h)

The P-Lock automation tables, the parameter base values and the audio
offsets that the claims touch. The `v*` video-reactivity shadow parameters,
LFO amplitudes/rates, toggles and MIDI/OSC mapping tables are not read or
written by any of the functions modelled below and are omitted from the
state. -/

/-- `P_LOCK_SIZE` from ParameterManager.h: steps per automation track. -/
def P_LOCK_SIZE : ℕ := 240

/-- `P_LOCK_NUMBER` from ParameterManager.h: number of automation tracks. -/
def P_LOCK_NUMBER : ℕ := 17

-- The `PLockIndex` enum from ParameterManager.h.
namespace PLockIndex

def LUMAKEY_VALUE : ℤ := 0
def MIX : ℤ := 1
def HUE : ℤ := 2
def SATURATION : ℤ := 3
def BRIGHTNESS : ℤ := 4
def TEMPORAL_FILTER_MIX : ℤ := 5
def TEMPORAL_FILTER_RESONANCE : ℤ := 6
def SHARPEN_AMOUNT : ℤ := 7
def X_DISPLACE : ℤ := 8
def Y_DISPLACE : ℤ := 9
def Z_DISPLACE : ℤ := 10
def ROTATE : ℤ := 11
def HUE_MODULATION : ℤ := 12
def HUE_OFFSET : ℤ := 13
def HUE_LFO : ℤ := 14
def DELAY_AMOUNT : ℤ := 15
def UNUSED_16 : ℤ := 16

end PLockIndex

/-- The `ParameterManager` fields touched by the modelled methods. -/
structure PMState where
  recordingEnabled : Bool
  currentStep : Fin P_LOCK_SIZE
  pLockValues : Fin P_LOCK_NUMBER → Fin P_LOCK_SIZE → ℚ
  pLockSmoothedValues : Fin P_LOCK_NUMBER → ℚ
  pLockSmoothFactor : ℚ
  lumakeyValue : ℚ
  mix : ℚ
  hue : ℚ
  saturation : ℚ
  brightness : ℚ
  temporalFilterMix : ℚ
  temporalFilterResonance : ℚ
  sharpenAmount : ℚ
  xDisplace : ℚ
  yDisplace : ℚ
  zDisplace : ℚ
  rotate : ℚ
  hueModulation : ℚ
  hueOffset : ℚ
  hueLFO : ℚ
  delayAmount : ℤ
  zFrequency : ℚ
  xFrequency : ℚ
  yFrequency : ℚ
  audioLumakeyValueOffset : ℚ
  audioMixOffset : ℚ
  audioHueOffset : ℚ
  audioSaturationOffset : ℚ
  audioBrightnessOffset : ℚ
  audioTemporalFilterMixOffset : ℚ
  audioTemporalFilterResonanceOffset : ℚ
  audioSharpenAmountOffset : ℚ
  audioXDisplaceOffset : ℚ
  audioYDisplaceOffset : ℚ
  audioZDisplaceOffset : ℚ
  audioRotateOffset : ℚ
  audioHueModulationOffset : ℚ
  audioHueOffsetOffset : ℚ
  audioHueLFOOffset : ℚ
  audioDelayAmountOffset : ℤ
  audioZFrequencyOffset : ℚ
  audioXFrequencyOffset : ℚ
  audioYFrequencyOffset : ℚ

/-- `ParameterManager::getPLockValue`: current smoothed value of a track,
0 for an out-of-range index. -/
def getPLockValue (st : PMState) (paramIndex : ℤ) : ℚ :=
  if h : 0 ≤ paramIndex ∧ paramIndex < (P_LOCK_NUMBER : ℤ) then
    st.pLockSmoothedValues ⟨paramIndex.toNat, by
      have := h.2
      simp only [P_LOCK_NUMBER] at this ⊢
      omega⟩
  else 0

/-- `ParameterManager::recordParameter`: writes into the current step of a
track only while recording and for a valid index; otherwise a no-op. -/
def recordParameter (st : PMState) (paramIndex : ℤ) (value : ℚ) : PMState :=
  if h : st.recordingEnabled = true ∧ 0 ≤ paramIndex ∧ paramIndex < (P_LOCK_NUMBER : ℤ) then
    let i : Fin P_LOCK_NUMBER := ⟨paramIndex.toNat, by
      have := h.2.2
      simp only [P_LOCK_NUMBER] at this ⊢
      omega⟩
    let row := Function.update (st.pLockValues i) st.currentStep value
    { st with pLockValues := Function.update st.pLockValues i row }
  else st

/-- `ParameterManager::updatePLocks`: smooths every track through
`raw[currentStep] * (1 - factor) + previous * factor`, zeroes the result
below the 0.01 deadband, then advances the shared step cursor modulo
`P_LOCK_SIZE` when recording is enabled. -/
def updatePLocks (st : PMState) : PMState :=
  { st with
    pLockSmoothedValues := fun i =>
      let v := st.pLockValues i st.currentStep * (1 - st.pLockSmoothFactor)
        + st.pLockSmoothedValues i * st.pLockSmoothFactor
      if |v| < 1/100 then 0 else v,
    currentStep :=
      if st.recordingEnabled then
        ⟨(st.currentStep.val + 1) % P_LOCK_SIZE, Nat.mod_lt _ (by decide)⟩
      else st.currentStep }

/-- `ParameterManager::clearAllLocks`: zeroes every track's raw step values
and smoothed value; touches nothing else. -/
def clearAllLocks (st : PMState) : PMState :=
  { st with
    pLockSmoothedValues := fun _ => 0,
    pLockValues := fun _ _ => 0 }

/-- A C-style `(int)` cast of a float: truncation toward zero. -/
def truncQ (q : ℚ) : ℤ := if 0 ≤ q then ⌊q⌋ else ⌈q⌉

/-- `ParameterManager::getHue`. -/
def getHue (st : PMState) : ℚ :=
  (st.hue + st.audioHueOffset) * (1 + getPLockValue st PLockIndex.HUE)

/-- `ParameterManager::getSaturation`. -/
def getSaturation (st : PMState) : ℚ :=
  (st.saturation + st.audioSaturationOffset) * (1 + getPLockValue st PLockIndex.SATURATION)

/-- `ParameterManager::getBrightness`. -/
def getBrightness (st : PMState) : ℚ :=
  (st.brightness + st.audioBrightnessOffset) * (1 + getPLockValue st PLockIndex.BRIGHTNESS)

/-- `ParameterManager::getZDisplace`. -/
def getZDisplace (st : PMState) : ℚ :=
  (st.zDisplace + st.audioZDisplaceOffset) * (1 + getPLockValue st PLockIndex.Z_DISPLACE)

/-- `ParameterManager::getHueModulation` — note the inverted
`(1 - automation)` factor. -/
def getHueModulation (st : PMState) : ℚ :=
  (st.hueModulation + st.audioHueModulationOffset)
    * (1 - getPLockValue st PLockIndex.HUE_MODULATION)

/-- `ParameterManager::getDelayAmount`: the `(int)` cast of
`getPLockValue(DELAY_AMOUNT) * (P_LOCK_SIZE - 1.0f)` truncates toward zero. -/
def getDelayAmount (st : PMState) : ℤ :=
  st.delayAmount + st.audioDelayAmountOffset
    + truncQ (getPLockValue st PLockIndex.DELAY_AMOUNT * ((P_LOCK_SIZE : ℚ) - 1))

/-- A concrete `ParameterManager` state with every numeric field zero,
recording off, cursor at step 0 and the default smoothing factor 0.5. -/
def pmZero : PMState where
  recordingEnabled := false
  currentStep := ⟨0, by decide⟩
  pLockValues := fun _ _ => 0
  pLockSmoothedValues := fun _ => 0
  pLockSmoothFactor := 1/2
  lumakeyValue := 0
  mix := 0
  hue := 0
  saturation := 0
  brightness := 0
  temporalFilterMix := 0
  temporalFilterResonance := 0
  sharpenAmount := 0
  xDisplace := 0
  yDisplace := 0
  zDisplace := 0
  rotate := 0
  hueModulation := 0
  hueOffset := 0
  hueLFO := 0
  delayAmount := 0
  zFrequency := 0
  xFrequency := 0
  yFrequency := 0
  audioLumakeyValueOffset := 0
  audioMixOffset := 0
  audioHueOffset := 0
  audioSaturationOffset := 0
  audioBrightnessOffset := 0
  audioTemporalFilterMixOffset := 0
  audioTemporalFilterResonanceOffset := 0
  audioSharpenAmountOffset := 0
  audioXDisplaceOffset := 0
  audioYDisplaceOffset := 0
  audioZDisplaceOffset := 0
  audioRotateOffset := 0
  audioHueModulationOffset := 0
  audioHueOffsetOffset := 0
  audioHueLFOOffset := 0
  audioDelayAmountOffset := 0
  audioZFrequencyOffset := 0
  audioXFrequencyOffset := 0
  audioYFrequencyOffset := 0

end NievePool

namespace NievePool

/-- Live-automation variant of `pmZero`: recording on, every raw step 4/5. -/
def pmLive : PMState :=
  { pmZero with recordingEnabled := true, pLockValues := fun _ _ => 4/5 }

/-- State whose every smoothed automation value is 1/2. -/
def pmHalf : PMState :=
  { pmZero with
    hue := 1, saturation := 1, brightness := 1, zDisplace := 1, hueModulation := 1,
    pLockSmoothedValues := fun _ => 1/2 }

/-- State whose every smoothed automation value is -1/2. -/
def pmNegHalf : PMState :=
  { pmZero with pLockSmoothedValues := fun _ => -(1/2) }

/-- C2: `updatePLocks` smooths each of the 17 tracks through
`raw[currentStep] * (1 - smoothFactor) + previousSmoothed * smoothFactor`,
zeroes the result exactly when its magnitude is below 0.01, and afterwards
increments the shared step cursor modulo 240 precisely when record mode is
active. -/
theorem updatePLocks_deadband_and_cursor (st : PMState) (i : Fin P_LOCK_NUMBER) :
    (|st.pLockValues i st.currentStep * (1 - st.pLockSmoothFactor)
        + st.pLockSmoothedValues i * st.pLockSmoothFactor| < 1/100 →
      (updatePLocks st).pLockSmoothedValues i = 0) ∧
    (¬ |st.pLockValues i st.currentStep * (1 - st.pLockSmoothFactor)
        + st.pLockSmoothedValues i * st.pLockSmoothFactor| < 1/100 →
      (updatePLocks st).pLockSmoothedValues i
        = st.pLockValues i st.currentStep * (1 - st.pLockSmoothFactor)
          + st.pLockSmoothedValues i * st.pLockSmoothFactor) ∧
    (updatePLocks st).currentStep.val
      = (if st.recordingEnabled then (st.currentStep.val + 1) % P_LOCK_SIZE
         else st.currentStep.val) := by
  have hform : (updatePLocks st).pLockSmoothedValues i
      = if |st.pLockValues i st.currentStep * (1 - st.pLockSmoothFactor)
            + st.pLockSmoothedValues i * st.pLockSmoothFactor| < 1/100 then 0
        else st.pLockValues i st.currentStep * (1 - st.pLockSmoothFactor)
          + st.pLockSmoothedValues i * st.pLockSmoothFactor := rfl
  refine ⟨fun h => ?_, fun h => ?_, ?_⟩
  · rw [hform, if_pos h]
  · rw [hform, if_neg h]
  · by_cases hr : st.recordingEnabled <;> simp [updatePLocks, hr]

/-- Witness for C2: the deadband zeroes an all-silent state, passes a
loud state through the smoothing formula, and the cursor rule evaluates on
a recording state. -/
theorem updatePLocks_deadband_witness :
    (updatePLocks pmZero).pLockSmoothedValues ⟨0, by decide⟩ = 0 ∧
    (updatePLocks pmLive).pLockSmoothedValues ⟨0, by decide⟩ = 2/5 ∧
    (updatePLocks pmLive).currentStep.val
      = (if pmLive.recordingEnabled then (pmLive.currentStep.val + 1) % P_LOCK_SIZE
         else pmLive.currentStep.val) := by
  refine ⟨(updatePLocks_deadband_and_cursor pmZero ⟨0, by decide⟩).1 (by norm_num [pmZero]),
    ?_, (updatePLocks_deadband_and_cursor pmLive ⟨0, by decide⟩).2.2⟩
  have h := (updatePLocks_deadband_and_cursor pmLive ⟨0, by decide⟩).2.1 (by
    norm_num [pmLive, pmZero, abs_of_nonneg])
  rw [h]
  norm_num [pmLive, pmZero]

/-- C3: the multiplicative getters return
`(base + audioOffset) * (1 + smoothedAutomation)`, while `getHueModulation`
returns `(base + audioOffset) * (1 - smoothedAutomation)`; with base 1.0,
offset 0.0 and smoothed automation 1/2 the former give 3/2 and the latter
gives 1/2. -/
theorem multiplicative_getters_and_inverted_hue_mod :
    (∀ st : PMState,
      getHue st = (st.hue + st.audioHueOffset) * (1 + getPLockValue st PLockIndex.HUE) ∧
      getSaturation st
        = (st.saturation + st.audioSaturationOffset)
          * (1 + getPLockValue st PLockIndex.SATURATION) ∧
      getBrightness st
        = (st.brightness + st.audioBrightnessOffset)
          * (1 + getPLockValue st PLockIndex.BRIGHTNESS) ∧
      getZDisplace st
        = (st.zDisplace + st.audioZDisplaceOffset)
          * (1 + getPLockValue st PLockIndex.Z_DISPLACE) ∧
      getHueModulation st
        = (st.hueModulation + st.audioHueModulationOffset)
          * (1 - getPLockValue st PLockIndex.HUE_MODULATION)) ∧
    getHue pmHalf = 3/2 ∧ getSaturation pmHalf = 3/2 ∧ getBrightness pmHalf = 3/2 ∧
    getZDisplace pmHalf = 3/2 ∧ getHueModulation pmHalf = 1/2 := by
  refine ⟨fun st => ⟨rfl, rfl, rfl, rfl, rfl⟩, ?_, ?_, ?_, ?_, ?_⟩ <;>
    norm_num [getHue, getSaturation, getBrightness, getZDisplace, getHueModulation,
      getPLockValue, pmHalf, pmZero, PLockIndex.HUE, PLockIndex.SATURATION,
      PLockIndex.BRIGHTNESS, PLockIndex.Z_DISPLACE, PLockIndex.HUE_MODULATION,
      P_LOCK_NUMBER]

/-- C5 counterexample: with smoothed automation 1/2 on the delay track,
the code returns `0 + 0 + (int)(119.5) = 119`, while the claimed
`round`-based composition would give 120. -/
theorem getDelayAmount_round_counterexample :
    getDelayAmount pmHalf = 119 ∧
    pmHalf.delayAmount + pmHalf.audioDelayAmountOffset
      + round (getPLockValue pmHalf PLockIndex.DELAY_AMOUNT * ((P_LOCK_SIZE : ℚ) - 1))
      = 120 ∧
    (119 : ℤ) ≠ 120 := by
  refine ⟨?_, ?_, by norm_num⟩
  · norm_num [getDelayAmount, truncQ, getPLockValue, pmHalf, pmZero,
      PLockIndex.DELAY_AMOUNT, P_LOCK_NUMBER, P_LOCK_SIZE]
  · norm_num [getPLockValue, pmHalf, pmZero, PLockIndex.DELAY_AMOUNT,
      P_LOCK_NUMBER, P_LOCK_SIZE, round_eq]

/-- C5 amended: `getDelayAmount` composes as
`base + audioOffset + trunc(smoothedAutomation * (P_LOCK_SIZE - 1))` where
`trunc` truncates toward zero (the C `(int)` cast), not `round`; truncation
is visible at smoothed value 1/2 (giving 119) and -1/2 (giving -119, where
flooring would give -120). -/
theorem getDelayAmount_composition (st : PMState) :
    getDelayAmount st
      = st.delayAmount + st.audioDelayAmountOffset
        + truncQ (getPLockValue st PLockIndex.DELAY_AMOUNT * ((P_LOCK_SIZE : ℚ) - 1)) ∧
    getDelayAmount pmHalf = 119 ∧ getDelayAmount pmNegHalf = -119 := by
  refine ⟨rfl, ?_, ?_⟩ <;>
    norm_num [getDelayAmount, truncQ, getPLockValue, pmHalf, pmNegHalf, pmZero,
      PLockIndex.DELAY_AMOUNT, P_LOCK_NUMBER, P_LOCK_SIZE, Int.ceil_neg]

/-- C10: `clearAllLocks` zeroes every track's raw step values and smoothed
value and leaves every other field — cursor, recording flag, smoothing
factor, parameter bases and audio offsets — unchanged. -/
theorem clearAllLocks_effect (st : PMState) :
    ((clearAllLocks st).pLockValues = fun _ _ => 0) ∧
    ((clearAllLocks st).pLockSmoothedValues = fun _ => 0) ∧
    (clearAllLocks st).currentStep = st.currentStep ∧
    (clearAllLocks st).recordingEnabled = st.recordingEnabled ∧
    (clearAllLocks st).pLockSmoothFactor = st.pLockSmoothFactor ∧
    (clearAllLocks st).lumakeyValue = st.lumakeyValue ∧
    (clearAllLocks st).mix = st.mix ∧
    (clearAllLocks st).hue = st.hue ∧
    (clearAllLocks st).saturation = st.saturation ∧
    (clearAllLocks st).brightness = st.brightness ∧
    (clearAllLocks st).temporalFilterMix = st.temporalFilterMix ∧
    (clearAllLocks st).temporalFilterResonance = st.temporalFilterResonance ∧
    (clearAllLocks st).sharpenAmount = st.sharpenAmount ∧
    (clearAllLocks st).xDisplace = st.xDisplace ∧
    (clearAllLocks st).yDisplace = st.yDisplace ∧
    (clearAllLocks st).zDisplace = st.zDisplace ∧
    (clearAllLocks st).rotate = st.rotate ∧
    (clearAllLocks st).hueModulation = st.hueModulation ∧
    (clearAllLocks st).hueOffset = st.hueOffset ∧
    (clearAllLocks st).hueLFO = st.hueLFO ∧
    (clearAllLocks st).delayAmount = st.delayAmount ∧
    (clearAllLocks st).zFrequency = st.zFrequency ∧
    (clearAllLocks st).xFrequency = st.xFrequency ∧
    (clearAllLocks st).yFrequency = st.yFrequency ∧
    (clearAllLocks st).audioLumakeyValueOffset = st.audioLumakeyValueOffset ∧
    (clearAllLocks st).audioMixOffset = st.audioMixOffset ∧
    (clearAllLocks st).audioHueOffset = st.audioHueOffset ∧
    (clearAllLocks st).audioSaturationOffset = st.audioSaturationOffset ∧
    (clearAllLocks st).audioBrightnessOffset = st.audioBrightnessOffset ∧
    (clearAllLocks st).audioTemporalFilterMixOffset = st.audioTemporalFilterMixOffset ∧
    (clearAllLocks st).audioTemporalFilterResonanceOffset
      = st.audioTemporalFilterResonanceOffset ∧
    (clearAllLocks st).audioSharpenAmountOffset = st.audioSharpenAmountOffset ∧
    (clearAllLocks st).audioXDisplaceOffset = st.audioXDisplaceOffset ∧
    (clearAllLocks st).audioYDisplaceOffset = st.audioYDisplaceOffset ∧
    (clearAllLocks st).audioZDisplaceOffset = st.audioZDisplaceOffset ∧
    (clearAllLocks st).audioRotateOffset = st.audioRotateOffset ∧
    (clearAllLocks st).audioHueModulationOffset = st.audioHueModulationOffset ∧
    (clearAllLocks st).audioHueOffsetOffset = st.audioHueOffsetOffset ∧
    (clearAllLocks st).audioHueLFOOffset = st.audioHueLFOOffset ∧
    (clearAllLocks st).audioDelayAmountOffset = st.audioDelayAmountOffset ∧
    (clearAllLocks st).audioZFrequencyOffset = st.audioZFrequencyOffset ∧
    (clearAllLocks st).audioXFrequencyOffset = st.audioXFrequencyOffset ∧
    (clearAllLocks st).audioYFrequencyOffset = st.audioYFrequencyOffset := by
  simp [clearAllLocks]

end NievePool

namespace NievePool

/-! ## AudioReactivityManager (AudioReactivityManager.cpp / .h)

Band extraction, band-to-parameter mappings, and the audio-input
sanitization path. `bands`/`smoothedBands` are `std::vector<float>`
resized to `numBands`; they are modelled as total functions `ℤ → ℚ`
indexed by the C `int` band index, with `numBands` the logical size.
`fftSmoothed` keeps its list structure because the bin loop in
`groupBands` bound-checks against its size. -/

/-- `BandRange` from AudioReactivityManager.h. -/
structure BandRange where
  minBin : ℤ
  maxBin : ℤ
deriving DecidableEq

/-- `BandMapping` from AudioReactivityManager.h. -/
structure BandMapping where
  band : ℤ
  paramId : String
  scale : ℚ
  min : ℚ
  max : ℚ
  additive : Bool
deriving DecidableEq

/-- The `AudioReactivityManager` fields touched by the modelled methods. -/
structure AState where
  numBands : ℤ
  smoothing : ℚ
  fftSmoothed : List ℚ
  bandRanges : List BandRange
  bands : ℤ → ℚ
  smoothedBands : ℤ → ℚ
  mappings : List BandMapping

/-- `ofClamp` from openFrameworks:
`value < min ? min : value > max ? max : value`. -/
def ofClamp (value lo hi : ℚ) : ℚ :=
  if value < lo then lo else if value > hi then hi else value

/-- The bin indices `minBin, minBin+1, ..., maxBin` visited by the bin loop
of `groupBands` (empty when `maxBin < minBin`). -/
def binIndices (r : BandRange) : List ℤ :=
  (List.range (r.maxBin - r.minBin + 1).toNat).map (fun (k : ℕ) => r.minBin + (k : ℤ))

/-- The `sum`/`count` accumulation of `groupBands`' bin loop: a bin
contributes only when it indexes into `fftSmoothed` (the C++ comparison
`bin < fftSmoothed.size()` is false for negative `bin` after the
int-to-size_t conversion, so negative bins are skipped too). -/
def bandSumCount (fft : List ℚ) (r : BandRange) : ℚ × ℕ :=
  (binIndices r).foldl
    (fun acc bin =>
      if h : 0 ≤ bin ∧ bin.toNat < fft.length then
        (acc.1 + fft.get ⟨bin.toNat, h.2⟩, acc.2 + 1)
      else acc)
    (0, 0)

/-- The per-band average of `groupBands`:
`(count > 0) ? (sum / count) : 0`. -/
def bandAverage (fft : List ℚ) (r : BandRange) : ℚ :=
  let sc := bandSumCount fft r
  if 0 < sc.2 then sc.1 / (sc.2 : ℚ) else 0

/-- `AudioReactivityManager::groupBands`: for each band index below
`numBands` that has a configured range, stores the bin average as the raw
band energy and folds it into the smoothed energy with
`average * (1 - smoothing) + previous * smoothing`. No deadband is
applied. -/
def groupBands (st : AState) : AState :=
  { st with
    bands := fun i =>
      if h : 0 ≤ i ∧ i < st.numBands ∧ i.toNat < st.bandRanges.length then
        bandAverage st.fftSmoothed (st.bandRanges.get ⟨i.toNat, h.2.2⟩)
      else st.bands i,
    smoothedBands := fun i =>
      if h : 0 ≤ i ∧ i < st.numBands ∧ i.toNat < st.bandRanges.length then
        bandAverage st.fftSmoothed (st.bandRanges.get ⟨i.toNat, h.2.2⟩) * (1 - st.smoothing)
          + st.smoothedBands i * st.smoothing
      else st.smoothedBands i }

/-- `AudioReactivityManager::applyParameterValue`: routes a computed value
to the matching audio-offset setter of `ParameterManager`; the `additive`
flag is taken but ignored (the source notes it "is now ignored here"); an
unknown id writes nothing. The `delay_amount` branch performs the C
`static_cast<int>` truncation. -/
def applyParameterValue (paramId : String) (value : ℚ) (additive : Bool)
    (st : PMState) : PMState :=
  if paramId = "lumakey_value" ∨ paramId = "lumakeyValue" then
    { st with audioLumakeyValueOffset := value }
  else if paramId = "mix" then { st with audioMixOffset := value }
  else if paramId = "hue" then { st with audioHueOffset := value }
  else if paramId = "saturation" then { st with audioSaturationOffset := value }
  else if paramId = "brightness" then { st with audioBrightnessOffset := value }
  else if paramId = "temporal_filter_mix" ∨ paramId = "temporalFilterMix" then
    { st with audioTemporalFilterMixOffset := value }
  else if paramId = "temporal_filter_resonance" ∨ paramId = "temporalFilterResonance" then
    { st with audioTemporalFilterResonanceOffset := value }
  else if paramId = "sharpen_amount" ∨ paramId = "sharpenAmount" then
    { st with audioSharpenAmountOffset := value }
  else if paramId = "x_displace" ∨ paramId = "xDisplace" then
    { st with audioXDisplaceOffset := value }
  else if paramId = "y_displace" ∨ paramId = "yDisplace" then
    { st with audioYDisplaceOffset := value }
  else if paramId = "z_displace" ∨ paramId = "zDisplace" then
    { st with audioZDisplaceOffset := value }
  else if paramId = "z_frequency" ∨ paramId = "zFrequency" then
    { st with audioZFrequencyOffset := value }
  else if paramId = "x_frequency" ∨ paramId = "xFrequency" then
    { st with audioXFrequencyOffset := value }
  else if paramId = "y_frequency" ∨ paramId = "yFrequency" then
    { st with audioYFrequencyOffset := value }
  else if paramId = "rotate" then { st with audioRotateOffset := value }
  else if paramId = "hue_modulation" ∨ paramId = "hueModulation" then
    { st with audioHueModulationOffset := value }
  else if paramId = "hue_offset" ∨ paramId = "hueOffset" then
    { st with audioHueOffsetOffset := value }
  else if paramId = "hue_lfo" ∨ paramId = "hueLFO" then
    { st with audioHueLFOOffset := value }
  else if paramId = "delay_amount" ∨ paramId = "delayAmount" then
    { st with audioDelayAmountOffset := truncQ value }
  else st

/-- One iteration of the mapping loop in
`AudioReactivityManager::applyMappings`: for a valid band index, reads the
band energy, computes
`min + energy * scale * (max - min)` clamped to `[min, max]`, and routes it
through `applyParameterValue`; the same formula is used for both mapping
modes. -/
def applyMappingsStep (numBands : ℤ) (smoothedBands : ℤ → ℚ) (pm : PMState)
    (mapping : BandMapping) : PMState :=
  if 0 ≤ mapping.band ∧ mapping.band < numBands then
    let value := smoothedBands mapping.band
    let scaled := mapping.min + value * mapping.scale * (mapping.max - mapping.min)
    applyParameterValue mapping.paramId (ofClamp scaled mapping.min mapping.max)
      mapping.additive pm
  else pm

/-- `AudioReactivityManager::applyMappings`: evaluates every configured
mapping in order against the current band energies. -/
def applyMappings (st : AState) (pm : PMState) : PMState :=
  st.mappings.foldl (applyMappingsStep st.numBands st.smoothedBands) pm

/-- `AudioReactivityManager::getBand`: smoothed band energy, 0 for an
out-of-range index. -/
def getBand (st : AState) (band : ℤ) : ℚ :=
  if 0 ≤ band ∧ band < st.numBands then st.smoothedBands band else 0

/-- `AudioReactivityManager::removeMapping`: erases the mapping at a valid
index; a no-op otherwise. -/
def removeMapping (st : AState) (index : ℤ) : AState :=
  if 0 ≤ index ∧ index < (st.mappings.length : ℤ) then
    { st with mappings := st.mappings.eraseIdx index.toNat }
  else st

/-- A floating-point value: finite (with its exact value), an infinity, or
NaN. -/
inductive FloatVal where
  | fin : ℚ → FloatVal
  | pinf : FloatVal
  | ninf : FloatVal
  | nan : FloatVal
deriving DecidableEq

/-- Whether a floating-point value is finite (neither NaN nor ±Inf). -/
def FloatVal.isFinite : FloatVal → Bool
  | .fin _ => true
  | _ => false

/-- IEEE-style addition on `FloatVal` (NaN absorbs; opposite infinities
give NaN). Only finite operands are exercised after sanitization. -/
def FloatVal.add : FloatVal → FloatVal → FloatVal
  | .nan, _ => .nan
  | _, .nan => .nan
  | .pinf, .ninf => .nan
  | .ninf, .pinf => .nan
  | .pinf, _ => .pinf
  | _, .pinf => .pinf
  | .ninf, _ => .ninf
  | _, .ninf => .ninf
  | .fin a, .fin b => .fin (a + b)

/-- IEEE-style multiplication on `FloatVal` (NaN absorbs; `0 * ±Inf` gives
NaN). Only finite operands are exercised after sanitization. -/
def FloatVal.mul : FloatVal → FloatVal → FloatVal
  | .nan, _ => .nan
  | _, .nan => .nan
  | .pinf, .pinf => .pinf
  | .pinf, .ninf => .ninf
  | .ninf, .pinf => .ninf
  | .ninf, .ninf => .pinf
  | .pinf, .fin b => if b = 0 then .nan else if 0 < b then .pinf else .ninf
  | .fin a, .pinf => if a = 0 then .nan else if 0 < a then .pinf else .ninf
  | .ninf, .fin b => if b = 0 then .nan else if 0 < b then .ninf else .pinf
  | .fin a, .ninf => if a = 0 then .nan else if 0 < a then .ninf else .pinf
  | .fin a, .fin b => .fin (a * b)

/-- IEEE-style division on `FloatVal`. Only a finite numerator and a
positive finite denominator are exercised by the RMS computation. -/
def FloatVal.div : FloatVal → FloatVal → FloatVal
  | .nan, _ => .nan
  | _, .nan => .nan
  | .fin a, .fin b =>
      if b = 0 then (if a = 0 then .nan else if 0 < a then .pinf else .ninf)
      else .fin (a / b)
  | .pinf, .fin b => if 0 ≤ b then .pinf else .ninf
  | .ninf, .fin b => if 0 ≤ b then .ninf else .pinf
  | .fin _, .pinf => .fin 0
  | .fin _, .ninf => .fin 0
  | _, _ => .nan

/-- The per-sample sanitization in `AudioReactivityManager::audioIn`:
`if (std::isnan(sample) || std::isinf(sample)) sample = 0.0f`. -/
def sanitize (sample : FloatVal) : FloatVal :=
  if sample.isFinite then sample else .fin 0

/-- The analysis buffer written by `audioIn`: each incoming sample is
sanitized before being stored (this buffer is what `fft->setSignal`
receives). -/
def audioInBuffer (input : List FloatVal) : List FloatVal :=
  input.map sanitize

/-- The `sumSquared` accumulator of `audioIn`: sums `sample * sample` of
each sanitized sample. -/
def audioInSumSquared (input : List FloatVal) : FloatVal :=
  input.foldl (fun acc sample => acc.add ((sanitize sample).mul (sanitize sample))) (.fin 0)

/-- The square of the RMS input level computed by `audioIn`:
`sumSquared / numSamples` for a nonempty block, else 0. The reported level
is the square root of this; the square root of a finite nonnegative value
is finite. -/
def audioInputLevelSq (input : List FloatVal) : FloatVal :=
  if 0 < input.length then (audioInSumSquared input).div (.fin (input.length : ℚ))
  else .fin 0

end NievePool

namespace NievePool

/-- Spec-side rendering of "the arithmetic mean of the smoothed-spectrum
values of the bins in the band's range": the mean of
`fft[minBin], ..., fft[maxBin]`. -/
def specBandMean (fft : List ℚ) (r : BandRange) : ℚ :=
  (((List.range (r.maxBin - r.minBin + 1).toNat).map
      (fun (k : ℕ) => fft.getD (r.minBin + (k : ℤ)).toNat 0)).sum)
    / (((r.maxBin - r.minBin + 1).toNat : ℚ))

/-- A mapping's numeric and routing fields, without the (ignored) mode
flag. -/
def dropAdditive (m : BandMapping) : ℤ × String × ℚ × ℚ × ℚ :=
  (m.band, m.paramId, m.scale, m.min, m.max)

/-- An `AudioReactivityManager` state with the constructor defaults and no
spectrum data. -/
def aZero : AState where
  numBands := 8
  smoothing := 85/100
  fftSmoothed := []
  bandRanges := []
  bands := fun _ => 0
  smoothedBands := fun _ => 0
  mappings := []

/-- An additive-mode mapping of band 0 onto `rotate` with scale 1 over
[0, 1]. -/
def mapRotTrue : BandMapping where
  band := 0
  paramId := "rotate"
  scale := 1
  min := 0
  max := 1
  additive := true

/-- The same mapping with the mode flag cleared. -/
def mapRotFalse : BandMapping := { mapRotTrue with additive := false }

/-- One band at energy 1/2, mapped to `rotate` in additive mode. -/
def aBand1 : AState :=
  { aZero with
    numBands := 1,
    smoothedBands := fun b => if b = 0 then 1/2 else 0,
    mappings := [mapRotTrue] }

/-- `aBand1` with the mapping's mode flag cleared instead. -/
def aBand1f : AState := { aBand1 with mappings := [mapRotFalse] }

/-- One band over the single bin 0, with spectrum value 1/50 and all
smoothed energies still at 0. -/
def aDead : AState :=
  { aZero with numBands := 1, fftSmoothed := [1/50], bandRanges := [⟨0, 0⟩] }

theorem sanitize_isFinite (v : FloatVal) : (sanitize v).isFinite = true := by
  rw [sanitize]
  split_ifs with h
  · exact h
  · rfl

theorem sanitize_fin (v : FloatVal) : ∃ q : ℚ, sanitize v = .fin q := by
  cases v with
  | fin q => exact ⟨q, rfl⟩
  | pinf => exact ⟨0, rfl⟩
  | ninf => exact ⟨0, rfl⟩
  | nan => exact ⟨0, rfl⟩

theorem audioInSumSquared_fold (l : List FloatVal) :
    ∀ a : ℚ, 0 ≤ a →
      ∃ q : ℚ,
        l.foldl
            (fun (acc sample : FloatVal) =>
              acc.add ((sanitize sample).mul (sanitize sample)))
            (FloatVal.fin a) = FloatVal.fin q
          ∧ 0 ≤ q := by
  induction l with
  | nil => exact fun a ha => ⟨a, rfl, ha⟩
  | cons x xs ih =>
    intro a ha
    obtain ⟨s, hs⟩ := sanitize_fin x
    have hstep : (FloatVal.fin a).add ((sanitize x).mul (sanitize x)) = .fin (a + s * s) := by
      rw [hs]; rfl
    rw [List.foldl_cons, hstep]
    exact ih (a + s * s) (add_nonneg ha (mul_self_nonneg s))

/-- C7: every sample of an incoming block is sanitized (NaN/Inf replaced
by 0) before being stored in the analysis buffer and before contributing
to the RMS sum: every stored value is finite, and the RMS radicand
`sumSquared / numSamples` is a finite nonnegative value — so the reported
RMS level, its square root, is finite, and no non-finite value reaches the
FFT input. -/
theorem audioIn_sanitizes (input : List FloatVal) :
    (∀ v ∈ audioInBuffer input, v.isFinite = true) ∧
    (∃ q : ℚ, audioInSumSquared input = .fin q ∧ 0 ≤ q) ∧
    (∃ q : ℚ, audioInputLevelSq input = .fin q ∧ 0 ≤ q) := by
  obtain ⟨q, hq, hq0⟩ := audioInSumSquared_fold input 0 le_rfl
  have hq' : audioInSumSquared input = .fin q := hq
  refine ⟨?_, ⟨q, hq', hq0⟩, ?_⟩
  · intro v hv
    rw [audioInBuffer, List.mem_map] at hv
    obtain ⟨x, _, rfl⟩ := hv
    exact sanitize_isFinite x
  · rw [audioInputLevelSq]
    by_cases hl : 0 < input.length
    · rw [if_pos hl, hq']
      have hlen : ((input.length : ℚ)) ≠ 0 := by
        exact_mod_cast Nat.pos_iff_ne_zero.mp hl
      refine ⟨q / (input.length : ℚ), ?_, ?_⟩
      · rw [FloatVal.div]
        exact if_neg hlen
      · exact div_nonneg hq0 (by positivity)
    · rw [if_neg hl]
      exact ⟨0, rfl, le_rfl⟩

/-- Witness for C7 on the block `[NaN, 2.0, +Inf]`. -/
theorem audioIn_sanitizes_witness :
    (sanitize FloatVal.nan).isFinite = true ∧
    audioInSumSquared [FloatVal.nan, FloatVal.fin 2, FloatVal.pinf] = FloatVal.fin 4 :=
  ⟨(audioIn_sanitizes [FloatVal.nan, FloatVal.fin 2, FloatVal.pinf]).1
      (sanitize FloatVal.nan) (by simp [audioInBuffer]),
   by norm_num [audioInSumSquared, sanitize, FloatVal.isFinite, FloatVal.mul, FloatVal.add]⟩

end NievePool

namespace NievePool

/-- C8: out-of-range indices are never fatal and yield neutral defaults:
`getPLockValue` returns 0 outside [0, 16]; `recordParameter` is a no-op
when recording is off or the index is outside [0, 16]; `getBand` returns 0
outside [0, numBands); `removeMapping` leaves the mapping list unchanged
outside [0, size). -/
theorem out_of_range_indices_are_neutral :
    (∀ (st : PMState) (i : ℤ),
      ¬ (0 ≤ i ∧ i < (P_LOCK_NUMBER : ℤ)) → getPLockValue st i = 0) ∧
    (∀ (st : PMState) (i : ℤ) (v : ℚ),
      st.recordingEnabled = false ∨ ¬ (0 ≤ i ∧ i < (P_LOCK_NUMBER : ℤ)) →
        recordParameter st i v = st) ∧
    (∀ (st : AState) (b : ℤ), ¬ (0 ≤ b ∧ b < st.numBands) → getBand st b = 0) ∧
    (∀ (st : AState) (i : ℤ),
      ¬ (0 ≤ i ∧ i < (st.mappings.length : ℤ)) → (removeMapping st i).mappings = st.mappings) := by
  refine ⟨fun st i h => ?_, fun st i v h => ?_, fun st b h => ?_, fun st i h => ?_⟩
  · rw [getPLockValue, dif_neg h]
  · rw [recordParameter, dif_neg ?_]
    rintro ⟨hrec, hrange⟩
    rcases h with h | h
    · rw [h] at hrec
      exact Bool.false_ne_true hrec
    · exact h hrange
  · rw [getBand, if_neg h]
  · rw [removeMapping, if_neg h]

/-- Witness for C8 at track index 17, a non-recording write, band index 8
and mapping index 0 of an empty list. -/
theorem out_of_range_indices_witness :
    getPLockValue pmZero 17 = 0 ∧
    recordParameter pmZero 3 (1/2) = pmZero ∧
    getBand aZero 8 = 0 ∧
    (removeMapping aZero 0).mappings = aZero.mappings :=
  ⟨out_of_range_indices_are_neutral.1 pmZero 17 (by norm_num [P_LOCK_NUMBER]),
   out_of_range_indices_are_neutral.2.1 pmZero 3 (1/2) (Or.inl rfl),
   out_of_range_indices_are_neutral.2.2.1 aZero 8 (by norm_num [aZero]),
   out_of_range_indices_are_neutral.2.2.2 aZero 0 (by simp [aZero])⟩

theorem applyParameterValue_ignores_additive (paramId : String) (v : ℚ)
    (a₁ a₂ : Bool) (st : PMState) :
    applyParameterValue paramId v a₁ st = applyParameterValue paramId v a₂ st := rfl

theorem applyMappingsStep_congr (nb : ℤ) (sb : ℤ → ℚ) (pm : PMState)
    (m₁ m₂ : BandMapping) (h : dropAdditive m₁ = dropAdditive m₂) :
    applyMappingsStep nb sb pm m₁ = applyMappingsStep nb sb pm m₂ := by
  cases m₁ with
  | mk b₁ p₁ s₁ mn₁ mx₁ a₁ =>
  cases m₂ with
  | mk b₂ p₂ s₂ mn₂ mx₂ a₂ =>
  simp only [dropAdditive, Prod.mk.injEq] at h
  obtain ⟨hb, hp, hs, hmn, hmx⟩ := h
  subst hb; subst hp; subst hs; subst hmn; subst hmx
  rfl

theorem applyMappings_fold_congr (nb : ℤ) (sb : ℤ → ℚ) :
    ∀ (l₁ l₂ : List BandMapping), l₁.map dropAdditive = l₂.map dropAdditive →
      ∀ pm : PMState,
        l₁.foldl (applyMappingsStep nb sb) pm = l₂.foldl (applyMappingsStep nb sb) pm := by
  intro l₁
  induction l₁ with
  | nil =>
    intro l₂ h pm
    cases l₂ with
    | nil => rfl
    | cons y ys => simp at h
  | cons x xs ih =>
    intro l₂ h pm
    cases l₂ with
    | nil => simp at h
    | cons y ys =>
      simp only [List.map_cons, List.cons.injEq] at h
      rw [List.foldl_cons, List.foldl_cons, applyMappingsStep_congr nb sb pm x y h.1]
      exact ih ys h.2 _

/-- C9: the mapping pass writes exactly the same offsets whether a
mapping's additive flag is true or false — two runs over mapping lists
equal up to the additive flags, against the same band energies, produce
the same parameter store. -/
theorem applyMappings_additive_flag_irrelevant (a₁ a₂ : AState) (pm : PMState)
    (hn : a₁.numBands = a₂.numBands) (hs : a₁.smoothedBands = a₂.smoothedBands)
    (hm : a₁.mappings.map dropAdditive = a₂.mappings.map dropAdditive) :
    applyMappings a₁ pm = applyMappings a₂ pm := by
  rw [applyMappings, applyMappings, hn, hs]
  exact applyMappings_fold_congr a₂.numBands a₂.smoothedBands a₁.mappings a₂.mappings hm pm

/-- Witness for C9: flipping the single mapping's additive flag leaves the
written offsets unchanged. -/
theorem applyMappings_additive_flag_witness :
    applyMappings aBand1 pmZero = applyMappings aBand1f pmZero :=
  applyMappings_additive_flag_irrelevant aBand1 aBand1f pmZero rfl rfl rfl

/-- C4 counterexample: for the additive-mode mapping `mapRotTrue` over a
band energy of 1/2, the code writes offset 1/2 (it uses
`clamp(min + e*scale*(max-min))` for every mode), while the claimed
additive formula `clamp((e*2-1)*scale, min, max)` gives 0. -/
theorem applyParameterValue_rotate (v : ℚ) (a : Bool) (st : PMState) :
    applyParameterValue "rotate" v a st = { st with audioRotateOffset := v } := by
  unfold applyParameterValue
  rw [if_neg (by decide : ¬("rotate" = "lumakey_value" ∨ "rotate" = "lumakeyValue"))]
  rw [if_neg (by decide : ¬("rotate" = "mix"))]
  rw [if_neg (by decide : ¬("rotate" = "hue"))]
  rw [if_neg (by decide : ¬("rotate" = "saturation"))]
  rw [if_neg (by decide : ¬("rotate" = "brightness"))]
  rw [if_neg (by decide :
    ¬("rotate" = "temporal_filter_mix" ∨ "rotate" = "temporalFilterMix"))]
  rw [if_neg (by decide :
    ¬("rotate" = "temporal_filter_resonance" ∨ "rotate" = "temporalFilterResonance"))]
  rw [if_neg (by decide : ¬("rotate" = "sharpen_amount" ∨ "rotate" = "sharpenAmount"))]
  rw [if_neg (by decide : ¬("rotate" = "x_displace" ∨ "rotate" = "xDisplace"))]
  rw [if_neg (by decide : ¬("rotate" = "y_displace" ∨ "rotate" = "yDisplace"))]
  rw [if_neg (by decide : ¬("rotate" = "z_displace" ∨ "rotate" = "zDisplace"))]
  rw [if_neg (by decide : ¬("rotate" = "z_frequency" ∨ "rotate" = "zFrequency"))]
  rw [if_neg (by decide : ¬("rotate" = "x_frequency" ∨ "rotate" = "xFrequency"))]
  rw [if_neg (by decide : ¬("rotate" = "y_frequency" ∨ "rotate" = "yFrequency"))]
  rw [if_pos rfl]

theorem additive_mode_claim_counterexample :
    (applyMappings aBand1 pmZero).audioRotateOffset = 1/2 ∧
    ofClamp ((aBand1.smoothedBands mapRotTrue.band * 2 - 1) * mapRotTrue.scale)
      mapRotTrue.min mapRotTrue.max = 0 ∧
    (1/2 : ℚ) ≠ 0 := by
  refine ⟨?_, ?_, by norm_num⟩
  · have h1 : applyMappings aBand1 pmZero
        = applyParameterValue "rotate" (ofClamp (1/2) 0 1) true pmZero := by
      show applyMappingsStep aBand1.numBands aBand1.smoothedBands pmZero mapRotTrue = _
      rw [applyMappingsStep,
        if_pos (by norm_num [aBand1, aZero, mapRotTrue] :
          (0:ℤ) ≤ mapRotTrue.band ∧ mapRotTrue.band < aBand1.numBands)]
      norm_num [aBand1, aZero, mapRotTrue]
    rw [h1, applyParameterValue_rotate]
    norm_num [ofClamp]
  · norm_num [ofClamp, aBand1, aZero, mapRotTrue]

/-- C4 amended: for every configured band mapping with a valid band index,
the offset written to the target parameter equals
`clamp(min + energy * scale * (max - min), min, max)` in *both* modes; the
additive flag does not change the formula. -/
theorem mapping_offset_same_formula_both_modes (a : AState) (pm : PMState)
    (m : BandMapping) (hb : 0 ≤ m.band) (hlt : m.band < a.numBands) :
    applyMappings { a with mappings := [m] } pm
      = applyParameterValue m.paramId
          (ofClamp (m.min + a.smoothedBands m.band * m.scale * (m.max - m.min)) m.min m.max)
          m.additive pm := by
  show applyMappingsStep a.numBands a.smoothedBands pm m = _
  rw [applyMappingsStep, if_pos ⟨hb, hlt⟩]

/-- Witness for C4 (amended) on `aBand1`'s single mapping. -/
theorem mapping_offset_same_formula_witness :
    applyMappings aBand1 pmZero
      = applyParameterValue mapRotTrue.paramId
          (ofClamp (mapRotTrue.min
              + aBand1.smoothedBands mapRotTrue.band * mapRotTrue.scale
                * (mapRotTrue.max - mapRotTrue.min))
            mapRotTrue.min mapRotTrue.max)
          mapRotTrue.additive pmZero :=
  mapping_offset_same_formula_both_modes aBand1 pmZero mapRotTrue
    (by norm_num [mapRotTrue]) (by norm_num [mapRotTrue, aBand1, aZero])

end NievePool

namespace NievePool

theorem bandSumCount_all_in_range (fft : List ℚ) :
    ∀ (idxs : List ℤ) (a : ℚ) (c : ℕ),
      (∀ b ∈ idxs, 0 ≤ b ∧ b.toNat < fft.length) →
      idxs.foldl
          (fun (acc : ℚ × ℕ) (bin : ℤ) =>
            if h : 0 ≤ bin ∧ bin.toNat < fft.length then
              (acc.1 + fft.get ⟨bin.toNat, h.2⟩, acc.2 + 1)
            else acc)
          (a, c)
        = (a + (idxs.map (fun b => fft.getD b.toNat 0)).sum, c + idxs.length) := by
  intro idxs
  induction idxs with
  | nil =>
    intro a c _
    simp
  | cons x xs ih =>
    intro a c hall
    have hx := hall x (List.mem_cons_self x xs)
    rw [List.foldl_cons, dif_pos hx,
      ih (a + fft.get ⟨x.toNat, hx.2⟩) (c + 1)
        (fun b hb => hall b (List.mem_cons_of_mem x hb))]
    have hgd : fft.getD x.toNat 0 = fft.get ⟨x.toNat, hx.2⟩ := List.getD_eq_get _ _ hx.2
    simp only [List.map_cons, List.sum_cons, List.length_cons, hgd, Prod.mk.injEq]
    constructor
    · ring
    · omega

theorem bandAverage_eq_specBandMean (fft : List ℚ) (r : BandRange)
    (hmin : 0 ≤ r.minBin) (hle : r.minBin ≤ r.maxBin)
    (hmax : r.maxBin < (fft.length : ℤ)) :
    bandAverage fft r = specBandMean fft r := by
  have hall : ∀ b ∈ binIndices r, 0 ≤ b ∧ b.toNat < fft.length := by
    intro b hb
    rw [binIndices, List.mem_map] at hb
    obtain ⟨k, hk, rfl⟩ := hb
    rw [List.mem_range] at hk
    constructor
    · omega
    · omega
  have hsc : bandSumCount fft r
      = (0 + ((binIndices r).map (fun b => fft.getD b.toNat 0)).sum,
         0 + (binIndices r).length) :=
    bandSumCount_all_in_range fft (binIndices r) 0 0 hall
  have hmaps : (binIndices r).map (fun b => fft.getD b.toNat 0)
      = (List.range (r.maxBin - r.minBin + 1).toNat).map
          (fun (k : ℕ) => fft.getD (r.minBin + (k : ℤ)).toNat 0) := by
    rw [binIndices, List.map_map]
    rfl
  have hlen : (binIndices r).length = (r.maxBin - r.minBin + 1).toNat := by
    rw [binIndices, List.length_map, List.length_range]
  have hpos : 0 < (r.maxBin - r.minBin + 1).toNat := by omega
  simp only [bandAverage]
  rw [hsc]
  simp only [zero_add]
  rw [hmaps, hlen, if_pos hpos, specBandMean]

/-- C6 counterexample: with smoothing 0.85, previous smoothed energy 0 and
a one-bin band reading 0.02, `groupBands` leaves the new smoothed energy at
0.003 — below the claimed 0.01 deadband yet not zeroed: the band path has
no deadband. -/
theorem band_deadband_counterexample :
    (groupBands aDead).smoothedBands 0 = 3/1000 ∧
    |(3/1000 : ℚ)| < 1/100 ∧ (3/1000 : ℚ) ≠ 0 := by
  refine ⟨?_, by rw [abs_of_nonneg (by norm_num : (0:ℚ) ≤ 3/1000)]; norm_num, by norm_num⟩
  have hg : (0:ℤ) ≤ 0 ∧ (0:ℤ) < aDead.numBands ∧ (0:ℤ).toNat < aDead.bandRanges.length := by
    refine ⟨le_refl 0, by norm_num [aDead, aZero], by norm_num [aDead, aZero]⟩
  have hb : (groupBands aDead).smoothedBands 0
      = bandAverage aDead.fftSmoothed (aDead.bandRanges.get ⟨(0:ℤ).toNat, by decide⟩)
          * (1 - aDead.smoothing)
        + aDead.smoothedBands 0 * aDead.smoothing := by
    simp only [groupBands]
    rw [dif_pos hg]
  have havg : bandAverage aDead.fftSmoothed (aDead.bandRanges.get ⟨(0:ℤ).toNat, by decide⟩)
      = 1/50 := by
    rw [bandAverage_eq_specBandMean aDead.fftSmoothed
      (aDead.bandRanges.get ⟨(0:ℤ).toNat, by decide⟩) (by decide) (by decide) (by decide)]
    norm_num [specBandMean, aDead, aZero, List.range_succ]
  rw [hb, havg]
  norm_num [aDead, aZero]

/-- C6 amended: for every band with a valid configured range, `groupBands`
stores as the raw band energy the arithmetic mean of the smoothed-spectrum
values of the bins in the band's range and computes
`smoothed = mean * (1 - smoothing) + previousSmoothed * smoothing`, but no
deadband is applied to the result (unlike the automation sequencer's
`updatePLocks`). -/
theorem groupBands_mean_and_frame_smoothing (st : AState) (i : ℤ)
    (h0 : 0 ≤ i) (h1 : i < st.numBands) (h2 : i.toNat < st.bandRanges.length)
    (hmin : 0 ≤ (st.bandRanges.get ⟨i.toNat, h2⟩).minBin)
    (hle : (st.bandRanges.get ⟨i.toNat, h2⟩).minBin
      ≤ (st.bandRanges.get ⟨i.toNat, h2⟩).maxBin)
    (hmax : (st.bandRanges.get ⟨i.toNat, h2⟩).maxBin < (st.fftSmoothed.length : ℤ)) :
    (groupBands st).bands i
      = specBandMean st.fftSmoothed (st.bandRanges.get ⟨i.toNat, h2⟩) ∧
    (groupBands st).smoothedBands i
      = specBandMean st.fftSmoothed (st.bandRanges.get ⟨i.toNat, h2⟩) * (1 - st.smoothing)
        + st.smoothedBands i * st.smoothing := by
  have hg : 0 ≤ i ∧ i < st.numBands ∧ i.toNat < st.bandRanges.length := ⟨h0, h1, h2⟩
  have havg := bandAverage_eq_specBandMean st.fftSmoothed
    (st.bandRanges.get ⟨i.toNat, h2⟩) hmin hle hmax
  constructor
  · have hb : (groupBands st).bands i
        = bandAverage st.fftSmoothed (st.bandRanges.get ⟨i.toNat, h2⟩) := by
      simp only [groupBands]
      rw [dif_pos hg]
    rw [hb, havg]
  · have hsm : (groupBands st).smoothedBands i
        = bandAverage st.fftSmoothed (st.bandRanges.get ⟨i.toNat, h2⟩) * (1 - st.smoothing)
          + st.smoothedBands i * st.smoothing := by
      simp only [groupBands]
      rw [dif_pos hg]
    rw [hsm, havg]

/-- Witness for C6 (amended) on the one-band state `aDead`. -/
theorem groupBands_mean_witness :
    (groupBands aDead).bands 0
      = specBandMean aDead.fftSmoothed (aDead.bandRanges.get ⟨(0:ℤ).toNat, by decide⟩) ∧
    (groupBands aDead).smoothedBands 0
      = specBandMean aDead.fftSmoothed (aDead.bandRanges.get ⟨(0:ℤ).toNat, by decide⟩)
          * (1 - aDead.smoothing)
        + aDead.smoothedBands 0 * aDead.smoothing :=
  groupBands_mean_and_frame_smoothing aDead 0 (by norm_num)
    (by norm_num [aDead, aZero]) (by decide) (by decide) (by decide) (by decide)

end NievePool
